import Mathlib

/-!
Verification of the FAR Reference Book RAG chatbot core.

Frontend definitions are embedded from the TypeScript sources
(`src/services/chatApi.ts`, `src/components/chatbot/ChatWidget.tsx`,
`src/components/chatbot/ChatMessage.tsx`).  The backend pipeline
(rate limiter, retriever, context assembler, orchestrator) is not part of
the repository snapshot; those components are modelled from the spec, as
marked in their doc comments.

Text is represented as a list of characters, so that character-level
operations (slicing, truncation at whitespace) are directly expressible.
-/

namespace FarChat

/-- Character-sequence representation of a JS/Python string. -/
abbrev Text := List Char

/-- Message role, from the `role: 'user' | 'assistant'` field of the
`Message` interface in `src/services/chatApi.ts`. -/
inductive Role where
  | user : Role
  | assistant : Role
deriving DecidableEq

/-- Citation record, from the `Source` interface in
`src/services/chatApi.ts`.  The TS field `section` is renamed
`sectionRef` because it is a Lean keyword. -/
structure Source where
  chunk_id : String
  chapter : Nat
  sectionRef : String
  page : Option Nat
  relevance_score : ℚ
  excerpt : Text
deriving DecidableEq

/-- Chat message, from the `Message` interface in
`src/services/chatApi.ts` (timestamps abstracted as naturals). -/
structure Message where
  id : String
  conversation_id : String
  role : Role
  content : String
  selected_text : Option String
  sources : Option (List Source)
  created_at : Nat
deriving DecidableEq

/-- `Array.prototype.findIndex`, returning `none` where JS returns `-1`. -/
def findIndexBy (p : Message → Bool) : List Message → Option Nat
  | [] => none
  | m :: rest => if p m then some 0 else (findIndexBy p rest).map (· + 1)

/-- Embeds `handleRegenerateMessage` from
`src/components/chatbot/ChatWidget.tsx` (success path).  The backend call
`chatApi.sendMessage` is abstracted as the new assistant message
`newAssistant` it returns.  The two `setMessages` updates are composed:
first the stale assistant message is filtered out, then the response
handler keeps `prev.slice(0, assistantIndex)` of that filtered list and
appends the new assistant message. -/
def handleRegenerateMessage (messages : List Message) (assistantMessageId : String)
    (newAssistant : Message) : List Message :=
  match findIndexBy (fun m => decide (m.id = assistantMessageId)) messages with
  | none => messages
  | some i =>
    if i = 0 then messages
    else
      match messages[i - 1]? with
      | none => messages
      | some userMessage =>
        if userMessage.role = Role.user then
          (messages.filter (fun m => decide (m.id ≠ assistantMessageId))).take i
            ++ [newAssistant]
        else messages

/-- Number of user messages in a display list. -/
def countUsers (messages : List Message) : Nat :=
  messages.countP (fun m => decide (m.role = Role.user))

/-- Helper to build a concrete message. -/
def mkMsg (i cid : String) (r : Role) (c : String) : Message :=
  { id := i, conversation_id := cid, role := r, content := c,
    selected_text := none, sources := none, created_at := 0 }

/-- Concrete four-message conversation: two user/assistant exchanges. -/
def demoMessages : List Message :=
  [ mkMsg ("u1") ("c") Role.user ("q1"),
    mkMsg ("a1") ("c") Role.assistant ("ans1"),
    mkMsg ("u2") ("c") Role.user ("q2"),
    mkMsg ("a2") ("c") Role.assistant ("ans2") ]

/-- Concrete replacement assistant message. -/
def demoNewAssistant : Message := mkMsg ("a3") ("c") Role.assistant ("ans3")

/-- State of the character-by-character reveal in the streaming
`useEffect` of `src/components/chatbot/ChatMessage.tsx`. -/
structure StreamState where
  currentIndex : Nat
  displayedText : Text
  isStreamingActive : Bool
deriving DecidableEq

/-- Embeds one `setInterval` tick of the streaming effect in
`src/components/chatbot/ChatMessage.tsx`: while `currentIndex` is below
the full length, the prefix `fullText.slice(0, currentIndex + 1)` is
displayed and the index advances; otherwise the reveal stops. -/
def streamTick (fullText : Text) (s : StreamState) : StreamState :=
  if s.currentIndex < fullText.length then
    { currentIndex := s.currentIndex + 1,
      displayedText := fullText.take (s.currentIndex + 1),
      isStreamingActive := s.isStreamingActive }
  else
    { s with isStreamingActive := false }

/-- Start of the streaming effect: nothing displayed yet
(`useState('')`). -/
def streamStart : StreamState :=
  { currentIndex := 0, displayedText := [], isStreamingActive := true }

/-- Display state after `n` interval ticks. -/
def streamRun (fullText : Text) : Nat → StreamState
  | 0 => streamStart
  | n + 1 => streamTick fullText (streamRun fullText n)

/-- The fallback list `DEFAULT_LOCAL_BACKEND_URLS` from
`src/services/chatApi.ts` (verbatim, including the truncated first entry
and the duplicated second entry). -/
def DEFAULT_LOCAL_BACKEND_URLS : List String :=
  [("http://localhost:"), ("http://127.0.0.1:8080"), ("http://localhost:8080"),
   ("http://127.0.0.1:8080")]

/-- `buildPreferredBaseUrls` from `src/services/chatApi.ts`: the
configured URL first, then each default fallback URL not already
present. -/
def buildPreferredBaseUrls (initial : Option String) : List String :=
  DEFAULT_LOCAL_BACKEND_URLS.foldl
    (fun urls fallbackUrl => if fallbackUrl ∈ urls then urls else urls ++ [fallbackUrl])
    (match initial with
     | some i => [i]
     | none => [])

/-- The mutable fields of the `ChatAPI` class in
`src/services/chatApi.ts`. -/
structure ChatAPIState where
  baseUrl : String
  preferredBaseUrls : List String
deriving DecidableEq

/-- `setActiveBaseUrl` from `src/services/chatApi.ts`: promote `url` to
the front of the preference list and make it the active base URL. -/
def setActiveBaseUrl (s : ChatAPIState) (url : String) : ChatAPIState :=
  { baseUrl := url,
    preferredBaseUrls :=
      url :: s.preferredBaseUrls.filter (fun candidate => decide (candidate ≠ url)) }

/-- Loop body of `fetchWithFallback` from `src/services/chatApi.ts`.
The network is abstracted as `fetch`: `Except.ok` is a fetch whose
promise resolved (any HTTP status), `Except.error` a network failure.
Besides the result and the updated client state, the list of URLs
actually attempted is returned. -/
def fetchLoop {ε ρ : Type} (fetch : String → Except ε ρ) (s : ChatAPIState)
    (defaultErr : ε) :
    List String → Option ε → Except ε ρ × ChatAPIState × List String
  | [], lastError => (Except.error (lastError.getD defaultErr), s, [])
  | baseUrl :: rest, _ =>
    match fetch baseUrl with
    | Except.ok response =>
        (Except.ok response,
         if baseUrl = s.baseUrl then s else setActiveBaseUrl s baseUrl,
         [baseUrl])
    | Except.error e =>
        let out := fetchLoop fetch s defaultErr rest (some e)
        (out.1, out.2.1, baseUrl :: out.2.2)

/-- `fetchWithFallback` from `src/services/chatApi.ts`. -/
def fetchWithFallback {ε ρ : Type} (fetch : String → Except ε ρ) (defaultErr : ε)
    (s : ChatAPIState) : Except ε ρ × ChatAPIState × List String :=
  fetchLoop fetch s defaultErr s.preferredBaseUrls none

/-- First URL in the list whose fetch resolves, with its response. -/
def firstSuccess {ε ρ : Type} (fetch : String → Except ε ρ) :
    List String → Option (String × ρ)
  | [] => none
  | u :: rest =>
    match fetch u with
    | Except.ok r => some (u, r)
    | Except.error _ => firstSuccess fetch rest

/-- The network error of the last URL of the list (meaningful when every
fetch fails). -/
def lastErrorOf {ε ρ : Type} (fetch : String → Except ε ρ) (d : ε) :
    List String → ε
  | [] => d
  | [u] =>
    match fetch u with
    | Except.error e => e
    | Except.ok _ => d
  | _ :: u :: rest => lastErrorOf fetch d (u :: rest)

/-! Backend pipeline components.  The Python backend is not part of the
repository snapshot, so these are modelled from the spec, as noted on
each definition. -/

/-- Retrieval candidate (spec §3): chunk identifier, similarity score,
chunk text and locator metadata. -/
structure RetrievalCandidate where
  chunkId : String
  score : ℚ
  text : Text
  chapter : Nat
  sectionRef : String
  page : Option Nat
deriving DecidableEq

/-- Insert a candidate into a list sorted by descending score. -/
def insertDesc (c : RetrievalCandidate) :
    List RetrievalCandidate → List RetrievalCandidate
  | [] => [c]
  | d :: rest => if d.score ≤ c.score then c :: d :: rest else d :: insertDesc c rest

/-- Sort candidates by descending score (insertion sort). -/
def sortDesc : List RetrievalCandidate → List RetrievalCandidate
  | [] => []
  | c :: rest => insertDesc c (sortDesc rest)

/-- Modelled from the spec: `retrieve(queryVector, topK, scoreThreshold)`
(spec §4.2); the missing Python retriever and its vector index are
abstracted as the raw candidate list `raw` the index returns for the
query.  Candidates below the score floor are rejected, the rest are
ranked by descending score, and at most `topK` are returned. -/
def retrieve (raw : List RetrievalCandidate) (topK : Nat) (scoreThreshold : ℚ) :
    List RetrievalCandidate :=
  (sortDesc (raw.filter (fun c => decide (scoreThreshold ≤ c.score)))).take topK

/-- Source entry derived from a retrieval candidate (plan step 9: the
excerpt is the first 200 characters of the chunk text). -/
def toSource (c : RetrievalCandidate) : Source :=
  { chunk_id := c.chunkId, chapter := c.chapter, sectionRef := c.sectionRef,
    page := c.page, relevance_score := c.score, excerpt := c.text.take 200 }

/-- Drop the trailing partial word: remove characters from the end of `t`
until a whitespace character (or the beginning) is reached. -/
def dropLastWord (t : Text) : Text :=
  (t.reverse.dropWhile (fun c => !c.isWhitespace)).reverse

/-- Modelled from the spec: truncation at a whitespace boundary
(spec §4.3).  If `t` fits in `n` characters it is kept whole; otherwise
the first `n` characters are kept and the trailing partial word is
dropped. -/
def truncateAtWhitespace (t : Text) (n : Nat) : Text :=
  if t.length ≤ n then t else dropLastWord (t.take n)

/-- Modelled from the spec: the candidate part of `assemble` (spec §4.3,
missing Context Assembler).  Candidates are consumed in the given
(descending-score) order; one that fits the remaining budget is included
whole, the first that does not fit is truncated at a whitespace boundary
and assembly stops there. -/
def assembleCandidates : Nat → List RetrievalCandidate → Text
  | _, [] => []
  | budget, c :: rest =>
    if c.text.length ≤ budget then
      c.text ++ assembleCandidates (budget - c.text.length) rest
    else truncateAtWhitespace c.text budget

/-- Modelled from the spec: `assemble(candidates, highlightedText,
maxContextChars)` (spec §4.3).  Highlighted text, when present, is
prepended as the highest-priority segment (bounded by the same budget);
the remaining budget is filled with candidates. -/
def assemble (candidates : List RetrievalCandidate) (highlightedText : Option Text)
    (maxContextChars : Nat) : Text :=
  match highlightedText with
  | some h =>
    let hSeg := truncateAtWhitespace h maxContextChars
    hSeg ++ assembleCandidates (maxContextChars - hSeg.length) candidates
  | none => assembleCandidates maxContextChars candidates

/-- The error surface of the exposed contract (spec §6). -/
inductive PipelineError where
  | rateLimitExceeded
  | invalidInput
  | conversationNotFound
  | retrievalUnavailable
  | generationUnavailable
deriving DecidableEq

/-- External calls of the pipeline (spec §2 control flow). -/
inductive ExternalCall where
  | persistUser
  | embed
  | vectorSearch
  | generate
  | persistAssistant
deriving DecidableEq

/-- `SendMessageRequest` from `src/services/chatApi.ts` (also the plan's
Pydantic model of the same name). -/
structure SendMessageRequest where
  content : String
  selected_text : Option String
deriving DecidableEq

/-- Modelled from the spec: input validation of the exposed contract
(spec §6: content ≤ 500 chars, selectedText ≤ 2000 chars; plan:
`SendMessageRequest` with `max_length` 500 / 2000). -/
def validateRequest (req : SendMessageRequest) : Bool :=
  decide (req.content.length ≤ 500) &&
    (match req.selected_text with
     | some s => decide (s.length ≤ 2000)
     | none => true)

/-- Modelled from the spec: the fixed explicit no-answer text produced
when retrieval yields no qualifying content (spec §4.2, §7, §8). -/
def noRelevantContentAnswer : Text :=
  ("No relevant FAR content is available to answer this question.").toList

/-- Modelled from the spec: the per-question pipeline of the Orchestrator
(spec §4.5; the Python RAG service is missing).  The embedding and
generation providers are abstracted: `gen` maps the assembled context to
the generated answer, and the question's vector-index response is `raw`.
Returns the produced answer and sources (or the admission error) together
with the trace of external calls made. -/
def processMessage (raw : List RetrievalCandidate) (topK : Nat)
    (scoreThreshold : ℚ) (maxContextChars : Nat) (gen : Text → Text)
    (req : SendMessageRequest) :
    Except PipelineError (Text × List Source) × List ExternalCall :=
  if validateRequest req then
    let cands := retrieve raw topK scoreThreshold
    if cands.isEmpty then
      (Except.ok (noRelevantContentAnswer, []),
       [ExternalCall.persistUser, ExternalCall.embed, ExternalCall.vectorSearch,
        ExternalCall.persistAssistant])
    else
      (Except.ok
        (gen (assemble cands (req.selected_text.map String.toList) maxContextChars),
         cands.map toSource),
       [ExternalCall.persistUser, ExternalCall.embed, ExternalCall.vectorSearch,
        ExternalCall.generate, ExternalCall.persistAssistant])
  else (Except.error PipelineError.invalidInput, [])

/-- Modelled from the spec: prune hits that have fallen out of the
trailing window (spec §4.1): a hit at time `t` still counts at time `now`
iff `now < t + windowMinutes` (times in minutes). -/
def prune (now windowMinutes : Nat) (hits : List Nat) : List Nat :=
  hits.filter (fun t => decide (now < t + windowMinutes))

/-- Outcome of the rate-limit check. -/
inductive AdmitResult where
  | admitted
  | rateLimitExceeded
deriving DecidableEq

/-- Modelled from the spec: one `checkAndAdmit` on a single conversation's
hit log (spec §4.1): stale entries are pruned lazily, the new hit is
recorded, and the request fails when more than `maxRequests` hits are then
inside the window. -/
def checkOne (hits : List Nat) (now maxRequests windowMinutes : Nat) :
    AdmitResult × List Nat :=
  let newHits := now :: prune now windowMinutes hits
  (if maxRequests < newHits.length then AdmitResult.rateLimitExceeded
   else AdmitResult.admitted,
   newHits)

/-- Modelled from the spec: the Rate Limiter's keyed store
(conversationId → timestamp list, spec §9). -/
structure RateLimiter where
  hits : String → List Nat

/-- Modelled from the spec: `checkAndAdmit(conversationId, maxRequests,
windowMinutes)` at time `now` (spec §4.1), updating only the hit log of
`conversationId`. -/
def checkAndAdmit (rl : RateLimiter) (conversationId : String)
    (now maxRequests windowMinutes : Nat) : AdmitResult × RateLimiter :=
  let result := checkOne (rl.hits conversationId) now maxRequests windowMinutes
  (result.1, ⟨fun c => if c = conversationId then result.2 else rl.hits c⟩)

/-- A persisted message row of the Conversation Store. -/
structure StoredMessage where
  conversation_id : String
  role : Role
  content : String
deriving DecidableEq

/-- `listMessages(conversationId)` of the Conversation Store (spec §6). -/
def listMessages (store : List StoredMessage) (conversationId : String) :
    List StoredMessage :=
  store.filter (fun m => decide (m.conversation_id = conversationId))

/-- Rate limiter plus the append-only message store. -/
structure ServerState where
  limiter : RateLimiter
  store : List StoredMessage

/-- Modelled from the spec: the admission step of the pipeline (spec §4.5,
state `Admitted`): the rate limiter is consulted; a rejected request
leaves the store untouched, an admitted one persists the user message. -/
def admitRequest (st : ServerState) (conversationId : String)
    (now maxRequests windowMinutes : Nat) (req : SendMessageRequest) :
    AdmitResult × ServerState :=
  let checked := checkAndAdmit st.limiter conversationId now maxRequests windowMinutes
  match checked.1 with
  | AdmitResult.rateLimitExceeded =>
      (AdmitResult.rateLimitExceeded, { st with limiter := checked.2 })
  | AdmitResult.admitted =>
      (AdmitResult.admitted,
       { limiter := checked.2,
         store := st.store ++ [⟨conversationId, Role.user, req.content⟩] })

/-- Process a sequence of timed requests `(conversationId, time)` through
the rate limiter, collecting each admission decision. -/
def runLimiter (maxRequests windowMinutes : Nat) (rl : RateLimiter) :
    List (String × Nat) → RateLimiter × List (String × AdmitResult)
  | [] => (rl, [])
  | (cid, t) :: rest =>
    let step := checkAndAdmit rl cid t maxRequests windowMinutes
    let out := runLimiter maxRequests windowMinutes step.2 rest
    (out.1, (cid, step.1) :: out.2)

/-- The same traffic restricted to a single conversation's hit log. -/
def runHits (maxRequests windowMinutes : Nat) (hits : List Nat) :
    List Nat → List Nat × List AdmitResult
  | [] => (hits, [])
  | t :: rest =>
    let step := checkOne hits t maxRequests windowMinutes
    let out := runHits maxRequests windowMinutes step.2 rest
    (out.1, step.1 :: out.2)

/-- The request times of conversation `B` in a traffic sequence. -/
def projTimes (B : String) (events : List (String × Nat)) : List Nat :=
  events.filterMap (fun p => if p.1 = B then some p.2 else none)

/-- The admission decisions belonging to conversation `B`. -/
def decisionsFor (B : String) (decisions : List (String × AdmitResult)) :
    List AdmitResult :=
  decisions.filterMap (fun p => if p.1 = B then some p.2 else none)

/-- Concrete fetch oracle: only the second default local URL resolves. -/
def demoFetch : String → Except String Nat :=
  fun u => if u = ("http://127.0.0.1:8080") then Except.ok 200 else Except.error ("net")

/-- Concrete client state as built by the `ChatAPI` constructor. -/
def demoApiState : ChatAPIState :=
  { baseUrl := ("http://localhost:"),
    preferredBaseUrls := buildPreferredBaseUrls (some ("http://localhost:")) }


/-- Concrete raw vector-index response with one strong and one weak
candidate. -/
def demoRaw : List RetrievalCandidate :=
  [ { chunkId := "c1", score := 4/5, text := ("far part one text").toList,
      chapter := 1, sectionRef := "1.101", page := some 3 },
    { chunkId := "c2", score := 1/4, text := ("weak chunk").toList,
      chapter := 2, sectionRef := "2.101", page := none } ]

/-- Concrete valid request. -/
def demoReq : SendMessageRequest := { content := "what is far", selected_text := none }

/-- Concrete request whose content exceeds the 500-character bound. -/
def demoOversizedReq : SendMessageRequest :=
  { content := String.mk (List.replicate 501 ('a')), selected_text := none }

/-- The text is empty or ends with a whitespace character: a cut here sits
at a word boundary. -/
def atWhitespaceBoundary (t : Text) : Bool :=
  match t.getLast? with
  | none => true
  | some c => c.isWhitespace

/-- Concrete server state whose conversation `conv1` already has 20 hits
inside the hour window. -/
def demoServerState : ServerState :=
  { limiter := ⟨fun c => if c = ("conv1") then List.replicate 20 0 else []⟩,
    store := [⟨("conv1"), Role.user, "q1"⟩] }


-- ===== end of definitions (more definitions are added above this line) =====

-- ===== theorems =====

lemma findIndexBy_append_of_forall_false {p : Message → Bool} {l₁ l₂ : List Message}
    (h : ∀ m ∈ l₁, p m = false) :
    findIndexBy p (l₁ ++ l₂) = (findIndexBy p l₂).map (· + l₁.length) := by
  induction l₁ with
  | nil =>
    simp only [List.nil_append, List.length_nil]
    cases findIndexBy p l₂ <;> simp
  | cons m rest ih =>
    have hm : p m = false := h m (List.mem_cons_self m rest)
    have hrest : ∀ x ∈ rest, p x = false := fun x hx => h x (List.mem_cons_of_mem m hx)
    have step : findIndexBy p ((m :: rest) ++ l₂)
        = (findIndexBy p (rest ++ l₂)).map (· + 1) := by
      simp [findIndexBy, hm]
    rw [step, ih hrest]
    cases findIndexBy p l₂ with
    | none => rfl
    | some k => simp [List.length_cons, Nat.add_assoc]

theorem regenerate_last_assistant_aux (pre : List Message) (u a newA : Message)
    (hid : ∀ m ∈ pre ++ [u], m.id ≠ a.id) (hu : u.role = Role.user) :
    handleRegenerateMessage (pre ++ [u, a]) a.id newA = (pre ++ [u]) ++ [newA] := by
  have hfalse : ∀ m ∈ pre ++ [u], (fun m => decide (m.id = a.id)) m = false := by
    intro m hm
    simpa using hid m hm
  have hsplit : pre ++ [u, a] = (pre ++ [u]) ++ [a] := by simp
  have hfind : findIndexBy (fun m => decide (m.id = a.id)) (pre ++ [u, a])
      = some (pre.length + 1) := by
    rw [hsplit, findIndexBy_append_of_forall_false hfalse]
    simp [findIndexBy]
  have hget : (pre ++ [u, a])[pre.length + 1 - 1]? = some u := by
    have : (pre ++ [u, a])[pre.length]? = some u := by
      rw [List.getElem?_append_right (Nat.le_refl _)]
      simp
    simpa using this
  have hfilter : (pre ++ [u, a]).filter (fun m => decide (m.id ≠ a.id)) = pre ++ [u] := by
    have h1 : (pre ++ [u]).filter (fun m => decide (m.id ≠ a.id)) = pre ++ [u] :=
      List.filter_eq_self.mpr (by intro m hm; simpa using hid m hm)
    calc (pre ++ [u, a]).filter (fun m => decide (m.id ≠ a.id))
        = ((pre ++ [u]) ++ [a]).filter (fun m => decide (m.id ≠ a.id)) := by rw [hsplit]
      _ = (pre ++ [u]).filter (fun m => decide (m.id ≠ a.id))
            ++ [a].filter (fun m => decide (m.id ≠ a.id)) := List.filter_append _ _
      _ = (pre ++ [u]) ++ [] := by rw [h1]; simp [List.filter]
      _ = pre ++ [u] := by simp
  have htake : ((pre ++ [u]).take (pre.length + 1)) = pre ++ [u] := by
    have : (pre ++ [u]).length = pre.length + 1 := by simp
    calc (pre ++ [u]).take (pre.length + 1) = (pre ++ [u]).take (pre ++ [u]).length := by
          rw [this]
      _ = pre ++ [u] := List.take_length _
  unfold handleRegenerateMessage
  simp only [hfind]
  rw [if_neg (Nat.succ_ne_zero pre.length)]
  simp only [hget]
  rw [if_pos hu, hfilter, htake]

/-- Claim C1 (amended): regenerating the last assistant message of a
conversation removes exactly that message and appends exactly one new
assistant message, leaving the user-message count unchanged. -/
theorem regenerate_last_assistant (pre : List Message) (u a newA : Message)
    (hid : ∀ m ∈ pre ++ [u], m.id ≠ a.id)
    (hu : u.role = Role.user) (ha : a.role = Role.assistant)
    (hna : newA.role = Role.assistant) :
    handleRegenerateMessage (pre ++ [u, a]) a.id newA = (pre ++ [u]) ++ [newA] ∧
    countUsers ((pre ++ [u]) ++ [newA]) = countUsers (pre ++ [u, a]) := by
  refine ⟨regenerate_last_assistant_aux pre u a newA hid hu, ?_⟩
  simp [countUsers, List.countP_append, List.countP_cons, hu, ha, hna]

theorem regenerate_last_assistant_witness :
    handleRegenerateMessage demoMessages ("a2") demoNewAssistant
        = ([mkMsg ("u1") ("c") Role.user ("q1"), mkMsg ("a1") ("c") Role.assistant ("ans1")]
            ++ [mkMsg ("u2") ("c") Role.user ("q2")]) ++ [demoNewAssistant] := by
  have h := regenerate_last_assistant
    [mkMsg ("u1") ("c") Role.user ("q1"), mkMsg ("a1") ("c") Role.assistant ("ans1")]
    (mkMsg ("u2") ("c") Role.user ("q2")) (mkMsg ("a2") ("c") Role.assistant ("ans2"))
    demoNewAssistant (by decide) (by decide) (by decide) (by decide)
  exact h.1

/-- Claim C1 counterexample: regenerating an assistant message that is not
the last message of the conversation also removes every later message, so
the user-message count changes. -/
theorem regenerate_claim_counterexample :
    countUsers (handleRegenerateMessage demoMessages ("a1") demoNewAssistant)
      ≠ countUsers demoMessages := by decide


lemma streamRun_closed (content : Text) (n : Nat) :
    (streamRun content n).currentIndex = min n content.length ∧
    (streamRun content n).displayedText = content.take (min n content.length) := by
  induction n with
  | zero => simp [streamRun, streamStart]
  | succ n ih =>
    obtain ⟨hi, hd⟩ := ih
    show (streamTick content (streamRun content n)).currentIndex = _ ∧
      (streamTick content (streamRun content n)).displayedText = _
    unfold streamTick
    rw [hi]
    by_cases h : min n content.length < content.length
    · rw [if_pos h]
      constructor
      · show min n content.length + 1 = min (n + 1) content.length
        omega
      · show content.take (min n content.length + 1)
            = content.take (min (n + 1) content.length)
        congr 1
        omega
    · rw [if_neg h]
      constructor
      · show min n content.length = min (n + 1) content.length
        omega
      · show (streamRun content n).displayedText = content.take (min (n + 1) content.length)
        rw [hd]
        congr 1
        omega

/-- Claim C9: the client-side character-by-character reveal is purely
presentational: after any number of interval ticks the displayed text is
a prefix of the complete answer string returned for the message, and once
the reveal has consumed the whole answer it equals it exactly. -/
theorem streaming_display_presentational (content : Text) (n : Nat) :
    (streamRun content n).displayedText <+: content ∧
    (content.length ≤ n → (streamRun content n).displayedText = content) := by
  obtain ⟨-, hd⟩ := streamRun_closed content n
  constructor
  · rw [hd]
    exact ⟨content.drop (min n content.length), List.take_append_drop _ _⟩
  · intro hn
    rw [hd]
    have hmin : min n content.length = content.length := by omega
    rw [hmin, List.take_length]

theorem streaming_display_presentational_witness :
    (streamRun (("hi")).toList 5).displayedText <+: (("hi")).toList ∧
    (streamRun (("hi")).toList 5).displayedText = (("hi")).toList :=
  ⟨(streaming_display_presentational (("hi")).toList 5).1,
   (streaming_display_presentational (("hi")).toList 5).2 (by decide)⟩

lemma fetchLoop_tried_sublist {ε ρ : Type} (fetch : String → Except ε ρ)
    (s : ChatAPIState) (d : ε) (l : List String) :
    ∀ lastError : Option ε, ((fetchLoop fetch s d l lastError).2.2).Sublist l := by
  induction l with
  | nil => intro lastError; simp [fetchLoop]
  | cons u rest ih =>
    intro lastError
    cases h : fetch u with
    | ok r =>
      simp only [fetchLoop, h]
      exact List.Sublist.cons₂ u (List.nil_sublist rest)
    | error e =>
      simp only [fetchLoop, h]
      exact List.Sublist.cons₂ u (ih (some e))

lemma fetchLoop_firstSuccess {ε ρ : Type} (fetch : String → Except ε ρ)
    (s : ChatAPIState) (d : ε) (l : List String) :
    ∀ (lastError : Option ε) (u : String) (r : ρ),
      firstSuccess fetch l = some (u, r) →
      (fetchLoop fetch s d l lastError).1 = Except.ok r ∧
      (fetchLoop fetch s d l lastError).2.1
        = (if u = s.baseUrl then s else setActiveBaseUrl s u) := by
  induction l with
  | nil => intro lastError u r hfs; simp [firstSuccess] at hfs
  | cons v rest ih =>
    intro lastError u r hfs
    cases h : fetch v with
    | ok r0 =>
      simp only [firstSuccess, h, Option.some.injEq, Prod.mk.injEq] at hfs
      obtain ⟨hu, hr⟩ := hfs
      subst hu
      subst hr
      simp [fetchLoop, h]
    | error e =>
      simp only [firstSuccess, h] at hfs
      simp only [fetchLoop, h]
      exact ih (some e) u r hfs

lemma fetchLoop_all_fail {ε ρ : Type} (fetch : String → Except ε ρ)
    (s : ChatAPIState) (d : ε) (l : List String) :
    ∀ lastError : Option ε, firstSuccess fetch l = none → l ≠ [] →
      (fetchLoop fetch s d l lastError).1 = Except.error (lastErrorOf fetch d l) := by
  induction l with
  | nil => intro le _ hne; exact absurd rfl hne
  | cons u rest ih =>
    intro le hfs _
    cases h : fetch u with
    | ok r => simp [firstSuccess, h] at hfs
    | error e =>
      simp only [firstSuccess, h] at hfs
      cases rest with
      | nil => simp [fetchLoop, h, lastErrorOf]
      | cons v rest2 =>
        have hrec := ih (some e) hfs (by simp)
        have hstep : (fetchLoop fetch s d (u :: v :: rest2) le).1
            = (fetchLoop fetch s d (v :: rest2) (some e)).1 := by
          simp only [fetchLoop, h]
        rw [hstep, hrec]
        rfl

/-- Claim C10: `fetchWithFallback` attempts each preferred base URL at
most once, in preference order, and returns the first response obtained;
a successful fetch against a non-active base URL promotes that URL to the
front of the preference list; only when every base URL fails with a
network error is the last such error thrown. -/
theorem fetchWithFallback_correct {ε ρ : Type} (fetch : String → Except ε ρ)
    (defaultErr : ε) (s : ChatAPIState) :
    ((fetchWithFallback fetch defaultErr s).2.2).Sublist s.preferredBaseUrls ∧
    (s.preferredBaseUrls.Nodup → ((fetchWithFallback fetch defaultErr s).2.2).Nodup) ∧
    (∀ u r, firstSuccess fetch s.preferredBaseUrls = some (u, r) →
      (fetchWithFallback fetch defaultErr s).1 = Except.ok r ∧
      (u = s.baseUrl → (fetchWithFallback fetch defaultErr s).2.1 = s) ∧
      (u ≠ s.baseUrl →
        (fetchWithFallback fetch defaultErr s).2.1.baseUrl = u ∧
        (fetchWithFallback fetch defaultErr s).2.1.preferredBaseUrls
          = u :: s.preferredBaseUrls.filter (fun candidate => decide (candidate ≠ u)))) ∧
    (firstSuccess fetch s.preferredBaseUrls = none → s.preferredBaseUrls ≠ [] →
      (fetchWithFallback fetch defaultErr s).1
        = Except.error (lastErrorOf fetch defaultErr s.preferredBaseUrls)) := by
  refine ⟨?_, ?_, ?_, ?_⟩
  · exact fetchLoop_tried_sublist fetch s defaultErr s.preferredBaseUrls none
  · intro hnodup
    exact (fetchLoop_tried_sublist fetch s defaultErr s.preferredBaseUrls none).nodup hnodup
  · intro u r hfs
    obtain ⟨h1, h2⟩ := fetchLoop_firstSuccess fetch s defaultErr s.preferredBaseUrls none u r hfs
    refine ⟨h1, ?_, ?_⟩
    · intro hu
      show (fetchLoop fetch s defaultErr s.preferredBaseUrls none).2.1 = s
      rw [h2, if_pos hu]
    · intro hu
      have h2x : (fetchWithFallback fetch defaultErr s).2.1 = setActiveBaseUrl s u := by
        show (fetchLoop fetch s defaultErr s.preferredBaseUrls none).2.1 = _
        rw [h2, if_neg hu]
      rw [h2x]
      exact ⟨rfl, rfl⟩
  · intro hfs hne
    exact fetchLoop_all_fail fetch s defaultErr s.preferredBaseUrls none hfs hne

theorem fetchWithFallback_correct_witness :
    (fetchWithFallback demoFetch ("boom") demoApiState).1 = Except.ok 200 ∧
    (fetchWithFallback demoFetch ("boom") demoApiState).2.1.baseUrl
      = ("http://127.0.0.1:8080") := by
  have h := fetchWithFallback_correct demoFetch ("boom") demoApiState
  have h3 := h.2.2.1 ("http://127.0.0.1:8080") 200 (by decide)
  exact ⟨h3.1, (h3.2.2 (by decide)).1⟩

lemma mem_insertDesc {x c : RetrievalCandidate} {l : List RetrievalCandidate} :
    x ∈ insertDesc c l ↔ x = c ∨ x ∈ l := by
  induction l with
  | nil => simp [insertDesc]
  | cons d rest ih =>
    by_cases h : d.score ≤ c.score
    · simp only [insertDesc, if_pos h, List.mem_cons]
    · simp only [insertDesc, if_neg h, List.mem_cons, ih]
      tauto

lemma insertDesc_pairwise {c : RetrievalCandidate} {l : List RetrievalCandidate}
    (hl : List.Pairwise (fun a b => b.score ≤ a.score) l) :
    List.Pairwise (fun a b => b.score ≤ a.score) (insertDesc c l) := by
  induction l with
  | nil => simp [insertDesc]
  | cons d rest ih =>
    obtain ⟨hd, hrest⟩ := List.pairwise_cons.mp hl
    by_cases h : d.score ≤ c.score
    · simp only [insertDesc, if_pos h]
      refine List.pairwise_cons.mpr ⟨?_, hl⟩
      intro x hx
      rcases List.mem_cons.mp hx with rfl | hx
      · exact h
      · exact le_trans (hd x hx) h
    · simp only [insertDesc, if_neg h]
      refine List.pairwise_cons.mpr ⟨?_, ih hrest⟩
      intro x hx
      rcases mem_insertDesc.mp hx with rfl | hx
      · exact le_of_lt (lt_of_not_le h)
      · exact hd x hx

lemma sortDesc_pairwise (l : List RetrievalCandidate) :
    List.Pairwise (fun a b => b.score ≤ a.score) (sortDesc l) := by
  induction l with
  | nil => simp [sortDesc]
  | cons c rest ih =>
    simp only [sortDesc]
    exact insertDesc_pairwise ih

lemma mem_sortDesc {x : RetrievalCandidate} {l : List RetrievalCandidate} :
    x ∈ sortDesc l ↔ x ∈ l := by
  induction l with
  | nil => simp [sortDesc]
  | cons c rest ih =>
    simp only [sortDesc, mem_insertDesc, List.mem_cons, ih]

lemma length_sortDesc (l : List RetrievalCandidate) :
    (sortDesc l).length = l.length := by
  induction l with
  | nil => simp [sortDesc]
  | cons c rest ih =>
    have hlen : ∀ (d : RetrievalCandidate) (m : List RetrievalCandidate),
        (insertDesc d m).length = m.length + 1 := by
      intro d m
      induction m with
      | nil => simp [insertDesc]
      | cons e r ihr =>
        by_cases h : e.score ≤ d.score
        · simp [insertDesc, if_pos h]
        · simp [insertDesc, if_neg h, ihr]
    simp only [sortDesc, hlen, ih, List.length_cons]

lemma retrieve_length_le (raw : List RetrievalCandidate) (topK : Nat) (thr : ℚ) :
    (retrieve raw topK thr).length ≤ topK := by
  show ((sortDesc (raw.filter fun c => decide (thr ≤ c.score))).take topK).length ≤ topK
  rw [List.length_take]
  exact Nat.min_le_left _ _

lemma retrieve_sorted (raw : List RetrievalCandidate) (topK : Nat) (thr : ℚ) :
    List.Pairwise (fun a b => b.score ≤ a.score) (retrieve raw topK thr) :=
  List.Pairwise.sublist (List.take_sublist _ _) (sortDesc_pairwise _)

lemma retrieve_scores (raw : List RetrievalCandidate) (topK : Nat) (thr : ℚ) :
    ∀ c ∈ retrieve raw topK thr, thr ≤ c.score := by
  intro c hc
  have h1 : c ∈ sortDesc (raw.filter fun c => decide (thr ≤ c.score)) :=
    List.mem_of_mem_take hc
  have h2 : c ∈ raw.filter (fun c => decide (thr ≤ c.score)) := mem_sortDesc.mp h1
  exact of_decide_eq_true (List.mem_filter.mp h2).2

lemma retrieve_ne_nil (raw : List RetrievalCandidate) (topK : Nat) (thr : ℚ)
    (hk : 0 < topK) (hex : ∃ c ∈ raw, thr ≤ c.score) :
    retrieve raw topK thr ≠ [] := by
  obtain ⟨c, hc, hsc⟩ := hex
  have hmem : c ∈ raw.filter (fun c => decide (thr ≤ c.score)) :=
    List.mem_filter.mpr ⟨hc, decide_eq_true hsc⟩
  have hpos : 0 < (retrieve raw topK thr).length := by
    show 0 < ((sortDesc (raw.filter fun c => decide (thr ≤ c.score))).take topK).length
    rw [List.length_take, length_sortDesc]
    exact lt_min hk (List.length_pos_of_mem hmem)
  exact List.length_pos.mp hpos

/-- Claim C2: when at least one retrieval candidate clears the score
threshold (and `topK` is positive; default 5), the pipeline answers with a
non-empty sources list sorted by descending relevance score, and the
retriever returns at most `topK` candidates, all with score at or above
the threshold, ordered descending by score. -/
theorem sources_nonempty_sorted_desc (raw : List RetrievalCandidate) (topK : Nat)
    (thr : ℚ) (maxContextChars : Nat) (gen : Text → Text) (req : SendMessageRequest)
    (hval : validateRequest req = true) (hk : 0 < topK)
    (hex : ∃ c ∈ raw, thr ≤ c.score) :
    (processMessage raw topK thr maxContextChars gen req).1
      = Except.ok
          (gen (assemble (retrieve raw topK thr) (req.selected_text.map String.toList)
            maxContextChars),
           (retrieve raw topK thr).map toSource) ∧
    (retrieve raw topK thr).map toSource ≠ [] ∧
    List.Pairwise (fun a b : Source => b.relevance_score ≤ a.relevance_score)
      ((retrieve raw topK thr).map toSource) ∧
    (retrieve raw topK thr).length ≤ topK ∧
    (∀ c ∈ retrieve raw topK thr, thr ≤ c.score) ∧
    List.Pairwise (fun a b : RetrievalCandidate => b.score ≤ a.score)
      (retrieve raw topK thr) := by
  have hne := retrieve_ne_nil raw topK thr hk hex
  refine ⟨?_, ?_, ?_, retrieve_length_le raw topK thr, retrieve_scores raw topK thr,
    retrieve_sorted raw topK thr⟩
  · have hempty : (retrieve raw topK thr).isEmpty = false := by
      cases hcase : retrieve raw topK thr with
      | nil => exact absurd hcase hne
      | cons a l => rfl
    unfold processMessage
    rw [if_pos hval]
    simp [hempty]
  · simp [hne]
  · rw [List.pairwise_map]
    exact retrieve_sorted raw topK thr

lemma retrieve_eq_nil_of_low (raw : List RetrievalCandidate) (topK : Nat) (thr : ℚ)
    (hlow : ∀ c ∈ raw, c.score < thr) : retrieve raw topK thr = [] := by
  have hf : raw.filter (fun c => decide (thr ≤ c.score)) = [] := by
    rw [List.filter_eq_nil_iff]
    intro c hc
    simp only [decide_eq_true_eq]
    exact not_le.mpr (hlow c hc)
  show (sortDesc (raw.filter fun c => decide (thr ≤ c.score))).take topK = []
  rw [hf]
  simp [sortDesc]

/-- Claim C3: when no retrieval candidate clears the score threshold the
pipeline still succeeds (no error): the retriever returns the empty list,
the answer is the explicit no-relevant-content text, and the sources
array is empty. -/
theorem empty_retrieval_success (raw : List RetrievalCandidate) (topK : Nat)
    (thr : ℚ) (maxContextChars : Nat) (gen : Text → Text) (req : SendMessageRequest)
    (hval : validateRequest req = true) (hlow : ∀ c ∈ raw, c.score < thr) :
    retrieve raw topK thr = [] ∧
    (processMessage raw topK thr maxContextChars gen req).1
      = Except.ok (noRelevantContentAnswer, []) := by
  have hnil := retrieve_eq_nil_of_low raw topK thr hlow
  refine ⟨hnil, ?_⟩
  unfold processMessage
  rw [if_pos hval]
  simp [hnil]

/-- Claim C8: a request whose content exceeds 500 characters or whose
selected text exceeds 2000 characters is rejected with `InvalidInput`
before any external call (embedding, retrieval, generation or
persistence) is made. -/
theorem oversized_input_rejected (raw : List RetrievalCandidate) (topK : Nat)
    (thr : ℚ) (maxContextChars : Nat) (gen : Text → Text) (req : SendMessageRequest)
    (h : 500 < req.content.length ∨
      ∃ s, req.selected_text = some s ∧ 2000 < s.length) :
    processMessage raw topK thr maxContextChars gen req
      = (Except.error PipelineError.invalidInput, []) := by
  have hval : validateRequest req = false := by
    unfold validateRequest
    rcases h with h | ⟨s, hs, hlen⟩
    · simp [decide_eq_false (not_le.mpr h)]
    · rw [hs]
      simp [decide_eq_false (not_le.mpr hlen)]
  simp [processMessage, hval]

theorem sources_nonempty_sorted_desc_witness :
    (retrieve demoRaw 5 (1/2)).map toSource ≠ [] ∧ (0 : Nat) < 5 :=
  ⟨(sources_nonempty_sorted_desc demoRaw 5 (1/2) 100 (fun t => t) demoReq
      (by decide) (by decide) (by norm_num [demoRaw])).2.1,
   by decide⟩

theorem empty_retrieval_success_witness :
    retrieve demoRaw 5 (9/10) = [] ∧
    (processMessage demoRaw 5 (9/10) 100 (fun t => t) demoReq).1
      = Except.ok (noRelevantContentAnswer, []) :=
  empty_retrieval_success demoRaw 5 (9/10) 100 (fun t => t) demoReq
    (by decide) (by norm_num [demoRaw])

theorem oversized_input_rejected_witness :
    processMessage demoRaw 5 (1/2) 100 (fun t => t) demoOversizedReq
      = (Except.error PipelineError.invalidInput, []) :=
  oversized_input_rejected demoRaw 5 (1/2) 100 (fun t => t) demoOversizedReq
    (Or.inl (by set_option maxRecDepth 4096 in decide))

lemma length_dropWhile_le {p : Char → Bool} (l : Text) :
    (l.dropWhile p).length ≤ l.length := by
  induction l with
  | nil => simp
  | cons c rest ih =>
    by_cases h : p c
    · simp only [List.dropWhile_cons, if_pos h]
      exact le_trans ih (by simp)
    · simp only [List.dropWhile_cons, if_neg h]
      exact Nat.le_refl _

lemma suffix_dropWhile {p : Char → Bool} (l : Text) : l.dropWhile p <:+ l := by
  induction l with
  | nil => simp
  | cons c rest ih =>
    by_cases h : p c
    · simp only [List.dropWhile_cons, if_pos h]
      exact ih.trans (List.suffix_cons c rest)
    · simp only [List.dropWhile_cons, if_neg h]
      exact List.suffix_refl _

lemma dropWhile_head_not {p : Char → Bool} (l : Text) :
    ∀ c, (l.dropWhile p).head? = some c → p c = false := by
  induction l with
  | nil => intro c h; simp at h
  | cons a rest ih =>
    intro c h
    by_cases hp : p a
    · rw [List.dropWhile_cons, if_pos hp] at h
      exact ih c h
    · rw [List.dropWhile_cons, if_neg hp] at h
      simp only [List.head?_cons, Option.some.injEq] at h
      rw [← h]
      exact Bool.of_not_eq_true hp

lemma dropLastWord_length_le (t : Text) : (dropLastWord t).length ≤ t.length := by
  unfold dropLastWord
  rw [List.length_reverse]
  calc (t.reverse.dropWhile (fun c => !c.isWhitespace)).length
      ≤ t.reverse.length := length_dropWhile_le _
    _ = t.length := List.length_reverse t

lemma dropLastWord_prefixOf (t : Text) : dropLastWord t <+: t := by
  unfold dropLastWord
  have h : t.reverse.dropWhile (fun c => !c.isWhitespace) <:+ t.reverse :=
    suffix_dropWhile _
  have h2 := List.reverse_prefix.mpr h
  rwa [List.reverse_reverse] at h2

lemma dropLastWord_atBoundary (t : Text) :
    atWhitespaceBoundary (dropLastWord t) = true := by
  unfold atWhitespaceBoundary dropLastWord
  rw [List.getLast?_reverse]
  cases h : (t.reverse.dropWhile (fun c => !c.isWhitespace)).head? with
  | none => rfl
  | some c =>
    have hc := dropWhile_head_not _ c h
    simp only [Bool.not_eq_false'] at hc
    simp [hc]

lemma truncateAtWhitespace_length_le (t : Text) (n : Nat) :
    (truncateAtWhitespace t n).length ≤ n := by
  unfold truncateAtWhitespace
  by_cases h : t.length ≤ n
  · rw [if_pos h]; exact h
  · rw [if_neg h]
    calc (dropLastWord (t.take n)).length
        ≤ (t.take n).length := dropLastWord_length_le _
      _ ≤ n := by rw [List.length_take]; exact Nat.min_le_left _ _

lemma truncateAtWhitespace_cases (t : Text) (n : Nat) :
    truncateAtWhitespace t n = t ∨
      (truncateAtWhitespace t n <+: t ∧
        atWhitespaceBoundary (truncateAtWhitespace t n) = true) := by
  unfold truncateAtWhitespace
  by_cases h : t.length ≤ n
  · rw [if_pos h]
    exact Or.inl rfl
  · rw [if_neg h]
    refine Or.inr ⟨?_, dropLastWord_atBoundary _⟩
    exact (dropLastWord_prefixOf _).trans ⟨t.drop n, List.take_append_drop n t⟩

lemma assembleCandidates_length_le (cs : List RetrievalCandidate) :
    ∀ budget, (assembleCandidates budget cs).length ≤ budget := by
  induction cs with
  | nil => intro budget; simp [assembleCandidates]
  | cons c rest ih =>
    intro budget
    by_cases h : c.text.length ≤ budget
    · simp only [assembleCandidates, if_pos h, List.length_append]
      have := ih (budget - c.text.length)
      omega
    · simp only [assembleCandidates, if_neg h]
      exact truncateAtWhitespace_length_le _ _

/-- Claim C5: for any candidate set and highlighted text the assembled
context never exceeds `maxContextChars`; and whenever truncation keeps
less than the full segment, the kept part ends at a whitespace boundary
(no mid-word cut). -/
theorem assemble_within_budget (candidates : List RetrievalCandidate)
    (highlightedText : Option Text) (maxContextChars : Nat) :
    (assemble candidates highlightedText maxContextChars).length ≤ maxContextChars ∧
    (∀ t n, truncateAtWhitespace t n = t ∨
      (truncateAtWhitespace t n <+: t ∧
        atWhitespaceBoundary (truncateAtWhitespace t n) = true)) := by
  refine ⟨?_, fun t n => truncateAtWhitespace_cases t n⟩
  cases highlightedText with
  | none => exact assembleCandidates_length_le candidates maxContextChars
  | some h =>
    show ((truncateAtWhitespace h maxContextChars)
        ++ assembleCandidates
            (maxContextChars - (truncateAtWhitespace h maxContextChars).length)
            candidates).length ≤ maxContextChars
    rw [List.length_append]
    have h1 := truncateAtWhitespace_length_le h maxContextChars
    have h2 := assembleCandidates_length_le candidates
      (maxContextChars - (truncateAtWhitespace h maxContextChars).length)
    omega

/-- Claim C6: when highlighted text is supplied (and fits the budget) the
assembled context begins with it — regardless of how the retrieved
candidates score — and the remaining budget is then filled from the
candidates in their given descending-score order. -/
theorem highlighted_text_first (candidates : List RetrievalCandidate) (h : Text)
    (maxContextChars : Nat) (hfit : h.length ≤ maxContextChars) :
    h <+: assemble candidates (some h) maxContextChars ∧
    assemble candidates (some h) maxContextChars
      = h ++ assembleCandidates (maxContextChars - h.length) candidates := by
  have htr : truncateAtWhitespace h maxContextChars = h := by
    unfold truncateAtWhitespace
    rw [if_pos hfit]
  constructor
  · show h <+: (truncateAtWhitespace h maxContextChars)
        ++ assembleCandidates
            (maxContextChars - (truncateAtWhitespace h maxContextChars).length)
            candidates
    rw [htr]
    exact ⟨_, rfl⟩
  · show (truncateAtWhitespace h maxContextChars)
        ++ assembleCandidates
            (maxContextChars - (truncateAtWhitespace h maxContextChars).length)
            candidates = _
    rw [htr]

theorem highlighted_text_first_witness :
    (("sel text")).toList <+: assemble demoRaw (some ((("sel text")).toList)) 100 :=
  (highlighted_text_first demoRaw (("sel text")).toList 100 (by decide)).1

/-- Claim C4: once the trailing window already holds `maxRequests` hits
for a conversation, any further request on it at that time is rejected
with `RateLimitExceeded` — whatever its content — and the message store
(hence `listMessages`) is unchanged, so previously admitted messages stay
retrievable. -/
theorem rate_limit_rejection (st : ServerState) (conversationId : String)
    (now maxRequests windowMinutes : Nat) (req : SendMessageRequest)
    (hover : maxRequests
      ≤ (prune now windowMinutes (st.limiter.hits conversationId)).length) :
    (admitRequest st conversationId now maxRequests windowMinutes req).1
        = AdmitResult.rateLimitExceeded ∧
    (∀ req2 : SendMessageRequest,
      (admitRequest st conversationId now maxRequests windowMinutes req2).1
        = AdmitResult.rateLimitExceeded) ∧
    (admitRequest st conversationId now maxRequests windowMinutes req).2.store
        = st.store ∧
    listMessages
        (admitRequest st conversationId now maxRequests windowMinutes req).2.store
        conversationId
      = listMessages st.store conversationId := by
  have hcount : maxRequests
      < (now :: prune now windowMinutes (st.limiter.hits conversationId)).length := by
    simp only [List.length_cons]
    omega
  have hreject : (checkAndAdmit st.limiter conversationId now maxRequests windowMinutes).1
      = AdmitResult.rateLimitExceeded := by
    show (if maxRequests
        < (now :: prune now windowMinutes (st.limiter.hits conversationId)).length
        then AdmitResult.rateLimitExceeded else AdmitResult.admitted)
      = AdmitResult.rateLimitExceeded
    rw [if_pos hcount]
  have hmain : ∀ req2 : SendMessageRequest,
      admitRequest st conversationId now maxRequests windowMinutes req2
        = (AdmitResult.rateLimitExceeded,
           { st with limiter :=
              (checkAndAdmit st.limiter conversationId now maxRequests windowMinutes).2 }) := by
    intro req2
    obtain ⟨res, rl, hc⟩ :
        ∃ res rl,
          checkAndAdmit st.limiter conversationId now maxRequests windowMinutes
            = (res, rl) := ⟨_, _, rfl⟩
    rw [hc] at hreject
    simp only at hreject
    subst hreject
    simp only [admitRequest, hc]
  refine ⟨?_, ?_, ?_, ?_⟩
  · rw [hmain req]
  · intro req2
    rw [hmain req2]
  · rw [hmain req]
  · rw [hmain req]

theorem rate_limit_rejection_witness :
    (admitRequest demoServerState ("conv1") 30 20 60 demoReq).1
        = AdmitResult.rateLimitExceeded ∧
    listMessages (admitRequest demoServerState ("conv1") 30 20 60 demoReq).2.store
        ("conv1")
      = listMessages demoServerState.store ("conv1") := by
  have h := rate_limit_rejection demoServerState ("conv1") 30 20 60 demoReq (by decide)
  exact ⟨h.1, h.2.2.2⟩

lemma runLimiter_localize (maxRequests windowMinutes : Nat) (B : String) :
    ∀ (events : List (String × Nat)) (rl : RateLimiter),
      (runLimiter maxRequests windowMinutes rl events).1.hits B
          = (runHits maxRequests windowMinutes (rl.hits B) (projTimes B events)).1 ∧
      decisionsFor B (runLimiter maxRequests windowMinutes rl events).2
          = (runHits maxRequests windowMinutes (rl.hits B) (projTimes B events)).2 := by
  intro events
  induction events with
  | nil =>
    intro rl
    simp [runLimiter, runHits, projTimes, decisionsFor]
  | cons ev rest ih =>
    intro rl
    obtain ⟨cid, t⟩ := ev
    have hstep : runLimiter maxRequests windowMinutes rl ((cid, t) :: rest)
        = ((runLimiter maxRequests windowMinutes
              (checkAndAdmit rl cid t maxRequests windowMinutes).2 rest).1,
           (cid, (checkAndAdmit rl cid t maxRequests windowMinutes).1)
             :: (runLimiter maxRequests windowMinutes
                  (checkAndAdmit rl cid t maxRequests windowMinutes).2 rest).2) := rfl
    rw [hstep]
    obtain ⟨ih1, ih2⟩ := ih (checkAndAdmit rl cid t maxRequests windowMinutes).2
    by_cases hB : cid = B
    · subst hB
      have hproj : projTimes cid ((cid, t) :: rest) = t :: projTimes cid rest := by
        simp [projTimes]
      have hlim : (checkAndAdmit rl cid t maxRequests windowMinutes).2.hits cid
          = (checkOne (rl.hits cid) t maxRequests windowMinutes).2 := by
        show (if cid = cid then (checkOne (rl.hits cid) t maxRequests windowMinutes).2
          else rl.hits cid) = _
        rw [if_pos rfl]
      have hrunhits : runHits maxRequests windowMinutes (rl.hits cid)
            (t :: projTimes cid rest)
          = ((runHits maxRequests windowMinutes
                (checkOne (rl.hits cid) t maxRequests windowMinutes).2
                (projTimes cid rest)).1,
             (checkOne (rl.hits cid) t maxRequests windowMinutes).1
               :: (runHits maxRequests windowMinutes
                    (checkOne (rl.hits cid) t maxRequests windowMinutes).2
                    (projTimes cid rest)).2) := rfl
      rw [hproj, hrunhits]
      constructor
      · rw [ih1, hlim]
      · have hdec : decisionsFor cid
            ((cid, (checkAndAdmit rl cid t maxRequests windowMinutes).1)
              :: (runLimiter maxRequests windowMinutes
                   (checkAndAdmit rl cid t maxRequests windowMinutes).2 rest).2)
          = (checkAndAdmit rl cid t maxRequests windowMinutes).1
              :: decisionsFor cid (runLimiter maxRequests windowMinutes
                   (checkAndAdmit rl cid t maxRequests windowMinutes).2 rest).2 := by
          simp [decisionsFor]
        rw [hdec, ih2, hlim]
        rfl
    · have hproj : projTimes B ((cid, t) :: rest) = projTimes B rest := by
        simp [projTimes, hB]
      have hlim : (checkAndAdmit rl cid t maxRequests windowMinutes).2.hits B
          = rl.hits B := by
        show (if B = cid then (checkOne (rl.hits cid) t maxRequests windowMinutes).2
          else rl.hits B) = _
        rw [if_neg (fun hh => hB hh.symm)]
      have hdec : decisionsFor B
          ((cid, (checkAndAdmit rl cid t maxRequests windowMinutes).1)
            :: (runLimiter maxRequests windowMinutes
                 (checkAndAdmit rl cid t maxRequests windowMinutes).2 rest).2)
          = decisionsFor B (runLimiter maxRequests windowMinutes
               (checkAndAdmit rl cid t maxRequests windowMinutes).2 rest).2 := by
        simp [decisionsFor, hB]
      rw [hproj, hdec, ih1, ih2, hlim]
      exact ⟨rfl, rfl⟩

/-- Claim C7: conversation isolation of the rate limiter — two traffic
interleavings whose request times for conversation B coincide (they
differ only in other conversations' traffic) produce identical admission
decisions for B. -/
theorem rate_limit_conversation_isolation (maxRequests windowMinutes : Nat)
    (B : String) (rl : RateLimiter) (events1 events2 : List (String × Nat))
    (h : projTimes B events1 = projTimes B events2) :
    decisionsFor B (runLimiter maxRequests windowMinutes rl events1).2
      = decisionsFor B (runLimiter maxRequests windowMinutes rl events2).2 := by
  rw [(runLimiter_localize maxRequests windowMinutes B events1 rl).2,
      (runLimiter_localize maxRequests windowMinutes B events2 rl).2, h]

theorem rate_limit_conversation_isolation_witness :
    decisionsFor ("B") (runLimiter 20 60 ⟨fun _ => []⟩
        [(("A"), 1), (("B"), 2), (("A"), 3)]).2
      = decisionsFor ("B") (runLimiter 20 60 ⟨fun _ => []⟩ [(("B"), 2)]).2 :=
  rate_limit_conversation_isolation 20 60 ("B") ⟨fun _ => []⟩
    [(("A"), 1), (("B"), 2), (("A"), 3)] [(("B"), 2)] (by decide)

end FarChat
